import Mathlib

/-!
Verification of the redaction engine of `src/modules/redaction.py`
(`redact_text`, `markdown_to_table_data`, `convert_to_original_format`).

Python strings are modelled as `List Char`; Python `int` as `Int` where
offsets may be negative (Python slicing interprets negative indices from the
end of the string).  Python slice semantics for `s[a:b]` with step 1 are
modelled exactly by `pySlice` below.
-/

/-- An entity dict with keys `start`, `end`, `label` (redaction.py line 30).
The `end` key is called `stop` here because `end` is a Lean keyword. -/
structure Entity where
  start : Int
  stop : Int
  label : List Char
deriving DecidableEq

/-- Python slice-index adjustment: a negative index counts from the end of the
sequence, then the result is clamped into `[0, n]`. -/
def pyIdx (n : Nat) (i : Int) : Nat :=
  if i < 0 then (i + n).toNat else min i.toNat n

/-- Python `s[a:b]` (step 1) on a string of characters. -/
def pySlice (l : List Char) (a b : Int) : List Char :=
  (l.take (pyIdx l.length b)).drop (pyIdx l.length a)

/-- Python `s[:b]`. -/
def pySliceTo (l : List Char) (b : Int) : List Char :=
  l.take (pyIdx l.length b)

/-- Python `s[a:]`. -/
def pySliceFrom (l : List Char) (a : Int) : List Char :=
  l.drop (pyIdx l.length a)

/-- Python `str.upper()` (the labels used by the program are ASCII, for which
`Char.toUpper` agrees with Python). -/
def pyUpper (s : List Char) : List Char := s.map Char.toUpper

/-- The replacement marker built at redaction.py line 43:
`f"[REDACTED {entity['label'].upper()}]"`. -/
def redactedLabel (lab : List Char) : List Char :=
  "[REDACTED ".toList ++ pyUpper lab ++ "]".toList

/-- One iteration of the loop in redaction.py lines 40-49.  The state is the
pair (current `redacted_text`, current `offset`). -/
def redactStep (st : List Char × Int) (e : Entity) : List Char × Int :=
  let start := e.start + st.2
  let stop := e.stop + st.2
  let entity_text := pySlice st.1 start stop
  let lbl := redactedLabel e.label
  let padding := List.replicate (entity_text.length - lbl.length) ' '
  (pySliceTo st.1 start ++ lbl ++ padding ++ pySliceFrom st.1 stop,
   st.2 + ((lbl.length + padding.length : Int) - (entity_text.length : Int)))

/-- The sort order of redaction.py line 36:
`sorted(entities, key=lambda x: (x["start"], -(x["end"] - x["start"])))`,
i.e. ascending `start`, ties broken by descending span length. -/
def entLe (x y : Entity) : Prop :=
  x.start < y.start ∨ (x.start = y.start ∧ y.stop - y.start ≤ x.stop - x.start)

instance : DecidableRel entLe := fun x y => by
  unfold entLe; infer_instance
instance : IsTotal Entity entLe := ⟨by intro x y; unfold entLe; omega⟩

instance : IsTrans Entity entLe := ⟨by intro a b c; unfold entLe; omega⟩

/-- redaction.py lines 24-51.  Python `sorted` is a stable sort by a total
preorder key; `List.insertionSort` with the key order `entLe` is also stable,
so it computes the same list. -/
def redact_text (text : List Char) (entities : List Entity) : List Char :=
  ((List.insertionSort entLe entities).foldl redactStep (text, 0)).1

/-- `redact_text` when the `entities` argument may be Python `None`:
line 36 evaluates `sorted(entities, ...)`, which raises `TypeError` when
`entities` is `None` (`NoneType` is not iterable). -/
def redact_text_opt (text : List Char) :
    Option (List Entity) → Except String (List Char)
  | none => Except.error "TypeError"
  | some es => Except.ok (redact_text text es)

/-- Python `str.isspace` characters relevant to `str.strip()` (ASCII range). -/
def pyIsSpace (c : Char) : Bool :=
  c == ' ' || c == '\t' || c == '\n' || c == '\r' || c == '\x0b' || c == '\x0c'

/-- Python `str.strip()`: remove whitespace from both ends. -/
def pyStrip (l : List Char) : List Char :=
  ((l.dropWhile pyIsSpace).reverse.dropWhile pyIsSpace).reverse

/-- Python `str.split(sep)` for a one-character separator: always returns at
least one (possibly empty) field. -/
def pySplitChar (sep : Char) : List Char → List (List Char)
  | [] => [[]]
  | c :: cs =>
    match pySplitChar sep cs with
    | [] => [[]]
    | h :: t => if c == sep then [] :: h :: t else (c :: h) :: t

/-- Python `s.startswith(p)`. -/
def pyStartsWith (l p : List Char) : Bool := l.take p.length == p

/-- Python `s.endswith(p)`. -/
def pyEndsWith (l p : List Char) : Bool := l.reverse.take p.length == p.reverse

/-- The per-line test of redaction.py line 178: the trimmed line starts and
ends with a pipe and is not a markdown separator row. -/
def isTableRow (line : List Char) : Bool :=
  let s := pyStrip line
  pyStartsWith s "|".toList && pyEndsWith s "|".toList &&
    !(pyStartsWith s "| ---".toList)

/-- The cell extraction of redaction.py line 179:
`[cell.strip() for cell in line.split('|')[1:-1]]`. -/
def rowCells (line : List Char) : List (List Char) :=
  (((pySplitChar '|' line).drop 1).dropLast).map pyStrip

/-- The loop of redaction.py lines 177-182: accumulate rows; once at least one
row has been collected, stop at the first non-row line. -/
def mttdGo : List (List Char) → List (List (List Char)) → List (List (List Char))
  | [], acc => acc
  | line :: rest, acc =>
    if isTableRow line then mttdGo rest (acc ++ [rowCells line])
    else if acc.isEmpty then mttdGo rest acc
    else acc

/-- redaction.py lines 164-184. -/
def markdown_to_table_data (markdown_text : List Char) : List (List (List Char)) :=
  mttdGo (pySplitChar '\n' markdown_text) []

/-- The claim's description of the same computation: the cells of the first
contiguous run of table-row lines (lines before it are skipped, parsing stops
at the first non-row line after the run). -/
def tableRowsSpec (markdown_text : List Char) : List (List (List Char)) :=
  (((pySplitChar '\n' markdown_text).dropWhile (fun l => !isTableRow l)).takeWhile
    isTableRow).map rowCells

/-- UTF-8 encoding of one Unicode scalar value, as Python
`str.encode('utf-8')` produces for one character. -/
def utf8EncodeChar (c : Char) : List Nat :=
  let n := c.toNat
  if n < 128 then [n]
  else if n < 2048 then [192 + n / 64, 128 + n % 64]
  else if n < 65536 then [224 + n / 4096, 128 + n / 64 % 64, 128 + n % 64]
  else [240 + n / 262144, 128 + n / 4096 % 64, 128 + n / 64 % 64, 128 + n % 64]

/-- Python `str.encode('utf-8')`. -/
def utf8Encode (s : List Char) : List Nat := (s.map utf8EncodeChar).flatten

/-- Strict UTF-8 decoding of one scalar, given the lead byte and the
remaining bytes: rejects continuation bytes in lead position, overlong forms,
surrogates and out-of-range scalars, as Python `bytes.decode('utf-8')` does.
Returns the decoded character and the bytes following its encoding. -/
def utf8DecodeOne (b : Nat) (rest : List Nat) : Option (Char × List Nat) :=
  if b < 128 then some (Char.ofNat b, rest)
  else if b < 194 then none
  else if b < 224 then
    match rest with
    | b1 :: r =>
      if 128 ≤ b1 ∧ b1 < 192 then
        some (Char.ofNat ((b - 192) * 64 + (b1 - 128)), r)
      else none
    | [] => none
  else if b < 240 then
    match rest with
    | b1 :: b2 :: r =>
      let m := (b - 224) * 4096 + (b1 - 128) * 64 + (b2 - 128)
      if 128 ≤ b1 ∧ b1 < 192 ∧ 128 ≤ b2 ∧ b2 < 192 ∧ 2048 ≤ m ∧
          ¬ (55296 ≤ m ∧ m < 57344) then
        some (Char.ofNat m, r)
      else none
    | _ => none
  else if b < 245 then
    match rest with
    | b1 :: b2 :: b3 :: r =>
      let m := (b - 240) * 262144 + (b1 - 128) * 4096 + (b2 - 128) * 64
        + (b3 - 128)
      if 128 ≤ b1 ∧ b1 < 192 ∧ 128 ≤ b2 ∧ b2 < 192 ∧ 128 ≤ b3 ∧ b3 < 192 ∧
          65536 ≤ m ∧ m < 1114112 then
        some (Char.ofNat m, r)
      else none
    | _ => none
  else none

/-- Decoding driver.  Each decoded character consumes one unit of fuel, so any
fuel bound of at least the number of encoded characters gives the decoder
fixpoint; the top-level decoder passes the byte count. -/
def utf8DecodeLoop : Nat → List Nat → Option (List Char)
  | _, [] => some []
  | 0, _ :: _ => none
  | fuel + 1, b :: rest =>
    match utf8DecodeOne b rest with
    | none => none
    | some (c, r) => (utf8DecodeLoop fuel r).map (fun cs => c :: cs)

/-- Strict UTF-8 decoding of a byte list, as Python `bytes.decode('utf-8')`. -/
def utf8Decode (l : List Nat) : Option (List Char) :=
  utf8DecodeLoop l.length l

/-- The result of `convert_to_original_format` (redaction.py lines 304-324):
the `txt` branch and the final fallback return the UTF-8 bytes of the text;
the other branches hand the text to the docx/pdf/image renderers, whose binary
output formats are outside the scope of the claims and are kept symbolic. -/
inductive FileOutput where
  | bytes (content : List Nat)
  | docxFile (md : List Char)
  | pdfFile (md : List Char)
  | imageFile (md : List Char)
deriving DecidableEq

/-- Python `str.lower()` (ASCII range, as used for filename extensions). -/
def pyLower (s : List Char) : List Char := s.map Char.toLower

/-- redaction.py lines 304-324: dispatch on
`original_filename.split('.')[-1].lower()`. -/
def convert_to_original_format (redacted_text : List Char)
    (original_filename : List Char) : FileOutput :=
  let ext := pyLower ((pySplitChar '.' original_filename).getLastD [])
  if ext = "txt".toList then FileOutput.bytes (utf8Encode redacted_text)
  else if ext = "docx".toList then FileOutput.docxFile redacted_text
  else if ext = "pdf".toList then FileOutput.pdfFile redacted_text
  else if ext = "jpg".toList ∨ ext = "png".toList then
    FileOutput.imageFile redacted_text
  else FileOutput.bytes (utf8Encode redacted_text)

/-! ### Helper lemmas about Python slicing and the redaction step -/

theorem pyIdx_eq_toNat {n : Nat} {i : Int} (h0 : 0 ≤ i) (h : i ≤ (n : Int)) :
    pyIdx n i = i.toNat := by
  unfold pyIdx
  rw [if_neg (by omega)]
  have : i.toNat ≤ n := Int.toNat_le.mpr h
  omega

theorem pyIdx_le (n : Nat) (i : Int) : pyIdx n i ≤ n := by
  unfold pyIdx
  split
  · omega
  · omega

theorem insertionSort_singleton (e : Entity) :
    List.insertionSort entLe [e] = [e] := rfl

/-- The first component of one redaction step, for an entity whose shifted
offsets are in range of the current buffer. -/
theorem redactStep_fst (rt : List Char) (off : Int) (e : Entity)
    (h0 : 0 ≤ e.start + off) (h1 : e.start + off ≤ e.stop + off)
    (h2 : e.stop + off ≤ (rt.length : Int)) :
    (redactStep (rt, off) e).1 =
      rt.take (e.start + off).toNat ++ redactedLabel e.label ++
      List.replicate ((e.stop - e.start).toNat - (redactedLabel e.label).length)
        ' ' ++
      rt.drop (e.stop + off).toNat := by
  have hs : pyIdx rt.length (e.start + off) = (e.start + off).toNat :=
    pyIdx_eq_toNat h0 (le_trans h1 h2)
  have ht : pyIdx rt.length (e.stop + off) = (e.stop + off).toNat :=
    pyIdx_eq_toNat (le_trans h0 h1) h2
  have htn : (e.stop + off).toNat ≤ rt.length := by omega
  have hlen :
      (pySlice rt (e.start + off) (e.stop + off)).length
        = (e.stop - e.start).toNat := by
    unfold pySlice
    rw [hs, ht, List.length_drop, List.length_take]
    omega
  simp only [redactStep, pySliceTo, pySliceFrom]
  rw [hlen, hs, ht]

/-- The single-entity case of `redact_text`, with in-range offsets. -/
theorem redact_single (text : List Char) (e : Entity)
    (h0 : 0 ≤ e.start) (h1 : e.start ≤ e.stop)
    (h2 : e.stop ≤ (text.length : Int)) :
    redact_text text [e] =
      text.take e.start.toNat ++ redactedLabel e.label ++
      List.replicate ((e.stop - e.start).toNat - (redactedLabel e.label).length)
        ' ' ++
      text.drop e.stop.toNat := by
  show (redactStep (text, 0) e).1 = _
  rw [redactStep_fst text 0 e (by omega) (by omega) (by omega)]
  norm_num

/-- Each loop iteration never shrinks the buffer: the inserted marker plus
padding is at least as long as the slice it replaces. -/
theorem redactStep_length (st : List Char × Int) (e : Entity) :
    st.1.length ≤ (redactStep st e).1.length := by
  obtain ⟨rt, off⟩ := st
  have ha := pyIdx_le rt.length (e.start + off)
  have hb := pyIdx_le rt.length (e.stop + off)
  simp only [redactStep, pySlice, pySliceTo, pySliceFrom, List.length_append,
    List.length_take, List.length_drop, List.length_replicate]
  omega

theorem redact_foldl_length (es : List Entity) :
    ∀ st : List Char × Int, st.1.length ≤ (es.foldl redactStep st).1.length := by
  induction es with
  | nil => intro st; exact le_refl _
  | cons e rest ih =>
    intro st
    exact le_trans (redactStep_length st e) (ih _)

theorem redact_text_length (text : List Char) (es : List Entity) :
    text.length ≤ (redact_text text es).length :=
  redact_foldl_length _ (text, 0)

theorem pyIdx_ge (n : Nat) (i : Int) (h : (n : Int) ≤ i) : pyIdx n i = n := by
  unfold pyIdx
  rw [if_neg (by omega)]
  omega

/-- An `end` offset past the end of the buffer behaves exactly like
`end = len(text)`: Python slicing clamps it. -/
theorem redact_single_clamp (text : List Char) (e : Entity)
    (h : (text.length : Int) ≤ e.stop) :
    redact_text text [e] =
      redact_text text [⟨e.start, (text.length : Int), e.label⟩] := by
  show (redactStep (text, 0) e).1
      = (redactStep (text, 0) ⟨e.start, (text.length : Int), e.label⟩).1
  simp only [redactStep, pySlice, pySliceTo, pySliceFrom]
  rw [pyIdx_ge text.length (e.stop + 0) (by omega),
    pyIdx_ge text.length ((text.length : Int) + 0) (by omega)]

/-! ### Helper lemmas about the table parser -/

theorem mttdGo_nonempty (lines : List (List Char)) :
    ∀ acc : List (List (List Char)), acc ≠ [] →
      mttdGo lines acc = acc ++ (lines.takeWhile isTableRow).map rowCells := by
  induction lines with
  | nil => intro acc _; simp [mttdGo]
  | cons line rest ih =>
    intro acc hacc
    simp only [mttdGo]
    by_cases hr : isTableRow line
    · rw [if_pos hr, ih _ (by simp), List.takeWhile_cons_of_pos hr]
      simp
    · rw [if_neg hr, if_neg (by simpa using hacc),
        List.takeWhile_cons_of_neg hr]
      simp

theorem mttdGo_nil_acc (lines : List (List Char)) :
    mttdGo lines [] =
      ((lines.dropWhile (fun l => !isTableRow l)).takeWhile isTableRow).map
        rowCells := by
  induction lines with
  | nil => simp [mttdGo]
  | cons line rest ih =>
    by_cases hr : isTableRow line
    · have hstep : mttdGo (line :: rest) [] = mttdGo rest [rowCells line] := by
        simp [mttdGo, hr]
      rw [hstep, mttdGo_nonempty _ _ (by simp),
        List.dropWhile_cons_of_neg (by simp [hr]),
        List.takeWhile_cons_of_pos hr]
      simp
    · have hstep : mttdGo (line :: rest) [] = mttdGo rest [] := by
        simp [mttdGo, hr]
      rw [hstep, ih, List.dropWhile_cons_of_pos (by simp [hr])]

/-! ### Helper lemmas about UTF-8 -/

theorem char_valid_facts (c : Char) :
    c.toNat < 1114112 ∧ ¬ (55296 ≤ c.toNat ∧ c.toNat < 57344) := by
  have h := c.valid
  have he : c.toNat = c.val.toNat := rfl
  rcases h with h | h <;> omega

theorem utf8DecodeOne_encodeChar (c : Char) :
    ∀ b tail rest, utf8EncodeChar c = b :: tail →
      utf8DecodeOne b (tail ++ rest) = some (c, rest) := by
  obtain ⟨hv1, hv2⟩ := char_valid_facts c
  have hofn : Char.ofNat c.toNat = c := Char.ofNat_toNat c
  intro b tail rest henc
  simp only [utf8EncodeChar] at henc
  by_cases h1 : c.toNat < 128
  · rw [if_pos h1] at henc
    obtain ⟨hb, ht⟩ : b = c.toNat ∧ tail = [] := by
      constructor <;> injection henc <;> simp_all
    subst hb ht
    simp only [List.nil_append, utf8DecodeOne]
    rw [if_pos h1, hofn]
  by_cases h2 : c.toNat < 2048
  · rw [if_neg h1, if_pos h2] at henc
    obtain ⟨hb, ht⟩ : b = 192 + c.toNat / 64 ∧ tail = [128 + c.toNat % 64] := by
      constructor <;> injection henc <;> simp_all
    subst hb ht
    simp only [List.cons_append, List.nil_append, utf8DecodeOne]
    rw [if_neg (by omega), if_neg (by omega), if_pos (by omega),
      if_pos (by omega)]
    have hm : (192 + c.toNat / 64 - 192) * 64 + (128 + c.toNat % 64 - 128)
        = c.toNat := by omega
    rw [hm, hofn]
  by_cases h3 : c.toNat < 65536
  · rw [if_neg h1, if_neg h2, if_pos h3] at henc
    obtain ⟨hb, ht⟩ : b = 224 + c.toNat / 4096 ∧
        tail = [128 + c.toNat / 64 % 64, 128 + c.toNat % 64] := by
      constructor <;> injection henc <;> simp_all
    subst hb ht
    simp only [List.cons_append, List.nil_append, utf8DecodeOne]
    rw [if_neg (by omega), if_neg (by omega), if_neg (by omega),
      if_pos (by omega), if_pos (by omega)]
    have hm : (224 + c.toNat / 4096 - 224) * 4096
        + (128 + c.toNat / 64 % 64 - 128) * 64 + (128 + c.toNat % 64 - 128)
        = c.toNat := by omega
    rw [hm, hofn]
  · rw [if_neg h1, if_neg h2, if_neg h3] at henc
    obtain ⟨hb, ht⟩ : b = 240 + c.toNat / 262144 ∧
        tail = [128 + c.toNat / 4096 % 64, 128 + c.toNat / 64 % 64,
          128 + c.toNat % 64] := by
      constructor <;> injection henc <;> simp_all
    subst hb ht
    simp only [List.cons_append, List.nil_append, utf8DecodeOne]
    rw [if_neg (by omega), if_neg (by omega), if_neg (by omega),
      if_neg (by omega), if_pos (by omega), if_pos (by omega)]
    have hm : (240 + c.toNat / 262144 - 240) * 262144
        + (128 + c.toNat / 4096 % 64 - 128) * 4096
        + (128 + c.toNat / 64 % 64 - 128) * 64 + (128 + c.toNat % 64 - 128)
        = c.toNat := by omega
    rw [hm, hofn]

theorem utf8EncodeChar_ne_nil (c : Char) : utf8EncodeChar c ≠ [] := by
  simp only [utf8EncodeChar]
  split
  · simp
  · split
    · simp
    · split <;> simp

theorem utf8DecodeLoop_encodeChar (fuel : Nat) (c : Char) (rest : List Nat) :
    utf8DecodeLoop (fuel + 1) (utf8EncodeChar c ++ rest)
      = (utf8DecodeLoop fuel rest).map (fun cs => c :: cs) := by
  obtain ⟨b, tail, henc⟩ :
      ∃ b tail, utf8EncodeChar c = b :: tail := by
    cases hx : utf8EncodeChar c with
    | nil => exact absurd hx (utf8EncodeChar_ne_nil c)
    | cons b tail => exact ⟨b, tail, rfl⟩
  rw [henc, List.cons_append, utf8DecodeLoop,
    utf8DecodeOne_encodeChar c b tail rest henc]

theorem utf8Encode_length (s : List Char) : s.length ≤ (utf8Encode s).length := by
  induction s with
  | nil => simp [utf8Encode]
  | cons c cs ih =>
    have he : utf8Encode (c :: cs) = utf8EncodeChar c ++ utf8Encode cs := rfl
    have hne := utf8EncodeChar_ne_nil c
    rw [he, List.length_append, List.length_cons]
    have : utf8EncodeChar c ≠ [] → 1 ≤ (utf8EncodeChar c).length := by
      cases utf8EncodeChar c <;> simp
    have h1 := this hne
    omega

theorem utf8DecodeLoop_encode (s : List Char) :
    ∀ fuel, s.length ≤ fuel → utf8DecodeLoop fuel (utf8Encode s) = some s := by
  induction s with
  | nil =>
    intro fuel _
    cases fuel <;> rfl
  | cons c cs ih =>
    intro fuel hf
    obtain ⟨f, rfl⟩ : ∃ f, fuel = f + 1 := ⟨fuel - 1, by simp at hf; omega⟩
    have he : utf8Encode (c :: cs) = utf8EncodeChar c ++ utf8Encode cs := rfl
    rw [he, utf8DecodeLoop_encodeChar, ih f (by simp at hf; omega)]
    rfl

theorem utf8_roundtrip (s : List Char) : utf8Decode (utf8Encode s) = some s :=
  utf8DecodeLoop_encode s _ (utf8Encode_length s)

/-! ### Helper lemmas for permutation invariance of the sort -/


theorem sortEntities_eq_of_perm {E1 E2 : List Entity} (hperm : E1.Perm E2)
    (hne : E1.Pairwise (fun x y => x.start ≠ y.start)) :
    List.insertionSort entLe E1 = List.insertionSort entLe E2 := by
  have hs1 := List.sorted_insertionSort entLe E1
  have hs2 := List.sorted_insertionSort entLe E2
  have hp1 := List.perm_insertionSort entLe E1
  have hp2 := List.perm_insertionSort entLe E2
  have hperm12 : (List.insertionSort entLe E1).Perm (List.insertionSort entLe E2) :=
    hp1.trans (hperm.trans hp2.symm)
  have hne1 : (List.insertionSort entLe E1).Pairwise (fun x y => x.start ≠ y.start) :=
    (hp1.pairwise_iff (fun h => Ne.symm h)).mpr hne
  have hne2 : (List.insertionSort entLe E2).Pairwise (fun x y => x.start ≠ y.start) :=
    (hperm12.pairwise_iff (fun h => Ne.symm h)).mp hne1
  have hlt1 : (List.insertionSort entLe E1).Pairwise
      (fun x y => x.start < y.start) :=
    (hs1.and hne1).imp (fun h => by
      obtain ⟨hle, hne⟩ := h
      unfold entLe at hle
      omega)
  have hlt2 : (List.insertionSort entLe E2).Pairwise
      (fun x y => x.start < y.start) :=
    (hs2.and hne2).imp (fun h => by
      obtain ⟨hle, hne⟩ := h
      unfold entLe at hle
      omega)
  haveI : IsAntisymm Entity (fun x y => x.start < y.start) :=
    ⟨fun a b h1 h2 => absurd (h1.trans h2) (lt_irrefl _)⟩
  exact List.eq_of_perm_of_sorted hperm12 hlt1 hlt2
/-! ### Claim theorems -/

/-- C1 counterexample: on text "abcdefghij" with entities
[(0,5,"A"), (2,8,"B")], the output is not "[REDACTED A]" followed by the
remainder of the text from offset 5: the overlapping entity is not dropped. -/
theorem c1_counterexample :
    redact_text "abcdefghij".toList [⟨0, 5, ['A']⟩, ⟨2, 8, ['B']⟩]
      ≠ "[REDACTED A]fghij".toList := by decide

/-- C1 amended: redact_text applies every sorted entity unconditionally at
its offset-shifted position; an entity overlapping an already-applied one is
not dropped but splices into the earlier replacement.  On the example, the
second entity rewrites part of the first marker. -/
theorem c1_amended :
    redact_text "abcdefghij".toList [⟨0, 5, ['A']⟩, ⟨2, 8, ['B']⟩]
      = "[REDACTED[REDACTED B]ij".toList := by decide

/-- C2 counterexample: entities = None raises TypeError instead of returning
the text unchanged, and redacting the empty text with a nonempty entity list
returns the bare marker, not "". -/
theorem c2_counterexample :
    redact_text_opt "abc".toList none ≠ Except.ok "abc".toList ∧
    redact_text [] [⟨0, 5, ['A']⟩] ≠ [] :=
  ⟨fun h => Except.noConfusion h, by decide⟩

/-- C2 amended: redact_text(text, []) = text for every text, but
entities = None raises TypeError (sorted(None) at line 36 is not iterable),
and redact_text("", E) = "" only holds for E = []: a nonempty entity list
inserts its markers even into the empty text. -/
theorem c2_amended :
    (∀ text : List Char, redact_text text [] = text) ∧
    (∀ text : List Char, redact_text_opt text none = Except.error "TypeError") ∧
    redact_text [] [] = [] ∧
    redact_text [] [⟨0, 5, ['A']⟩] = "[REDACTED A]".toList :=
  ⟨fun _ => rfl, fun _ => rfl, rfl, by decide⟩

/-- C3 counterexample: a zero-length span is not treated as a no-op: the
entity (1,1,"A") on "abc" inserts its marker at position 1. -/
theorem c3_counterexample :
    redact_text "abc".toList [⟨1, 1, ['A']⟩] ≠ "abc".toList := by decide

/-- C3 amended: redact_text is total (never raises) on empty text,
zero-length spans and boundary spans, but an entity with start = end inserts
the bare marker "[REDACTED label]" at that position instead of leaving the
output unchanged there. -/
theorem c3_amended (text : List Char) (e : Entity) (h0 : 0 ≤ e.start)
    (h1 : e.start = e.stop) (h2 : e.stop ≤ (text.length : Int)) :
    redact_text text [e] =
      text.take e.start.toNat ++ redactedLabel e.label ++
        text.drop e.start.toNat := by
  have hrep : ((e.stop - e.start).toNat - (redactedLabel e.label).length) = 0 := by
    omega
  rw [redact_single text e h0 (le_of_eq h1) h2, hrep, ← h1]
  simp

/-- C3 witness: the amended statement evaluated on "abc" with entity
(1,1,"A"). -/
theorem c3_witness :
    redact_text "abc".toList [⟨1, 1, ['A']⟩]
      = "abc".toList.take 1 ++ redactedLabel ['A'] ++ "abc".toList.drop 1 :=
  c3_amended "abc".toList ⟨1, 1, ['A']⟩ (by decide) (by decide) (by decide)

/-- C4: for an applied in-range entity the replacement is exactly
"[REDACTED " ++ upper(label) ++ "]", padded on the right with spaces so that
it is exactly as long as the span when the marker is shorter, and unpadded
(the output grows at that point) when the marker is longer. -/
theorem c4_replacement (text : List Char) (e : Entity) (h0 : 0 ≤ e.start)
    (h1 : e.start ≤ e.stop) (h2 : e.stop ≤ (text.length : Int)) :
    redact_text text [e] =
      text.take e.start.toNat ++
        ("[REDACTED ".toList ++ pyUpper e.label ++ "]".toList) ++
        List.replicate
          ((e.stop - e.start).toNat
            - ("[REDACTED ".toList ++ pyUpper e.label ++ "]".toList).length)
          ' ' ++
        text.drop e.stop.toNat ∧
    ("[REDACTED ".toList ++ pyUpper e.label ++ "]".toList).length
        + ((e.stop - e.start).toNat
            - ("[REDACTED ".toList ++ pyUpper e.label ++ "]".toList).length)
      = max ((e.stop - e.start).toNat)
          (("[REDACTED ".toList ++ pyUpper e.label ++ "]".toList).length) := by
  constructor
  · exact redact_single text e h0 h1 h2
  · omega

/-- C4 witness: on "abcdefghijklmnop" with entity (2,16,"pi") the marker
"[REDACTED PI]" (13 chars) replaces a 14-char span, so one space of padding
is appended. -/
theorem c4_witness :
    redact_text "abcdefghijklmnop".toList [⟨2, 16, ['p', 'i']⟩]
      = "ab[REDACTED PI] ".toList := by
  have h := c4_replacement "abcdefghijklmnop".toList ⟨2, 16, ['p', 'i']⟩
    (by decide) (by decide) (by decide)
  rw [h.1]
  decide

/-- C5 counterexample: with [(0,3,"A"), (0,5,"B")] on "abcdefgh" the marker
"[REDACTED B]" does not appear at position 0 of the output: the shorter
same-start entity is applied afterwards and overwrites part of it. -/
theorem c5_counterexample :
    (redact_text "abcdefgh".toList [⟨0, 3, ['A']⟩, ⟨0, 5, ['B']⟩]).take 12
      ≠ "[REDACTED B]".toList := by decide

/-- C5 amended: the sort is by ascending start with ties broken by descending
span length, so the longer entity (0,5,"B") is processed first and its marker
written at position 0; but the shorter (0,3,"A") is not dropped: it is
applied next on the shifted text and corrupts that marker. -/
theorem c5_amended :
    List.insertionSort entLe [⟨0, 3, ['A']⟩, ⟨0, 5, ['B']⟩]
      = [⟨0, 5, ['B']⟩, ⟨0, 3, ['A']⟩] ∧
    redact_text "abcdefgh".toList [⟨0, 3, ['A']⟩, ⟨0, 5, ['B']⟩]
      = "[REDACT[REDACTED A]B]fgh".toList := by
  constructor <;> decide

/-- C6: for entities satisfying the data-model invariant
(0 ≤ start < end ≤ len(text)) with pairwise non-overlapping spans, the output
of redact_text is the same for every permutation of the entity list. -/
theorem c6_perm_invariant (text : List Char) (E1 E2 : List Entity)
    (hperm : E1.Perm E2)
    (hvalid : ∀ e ∈ E1,
      0 ≤ e.start ∧ e.start < e.stop ∧ e.stop ≤ (text.length : Int))
    (hdisj : E1.Pairwise (fun x y => x.stop ≤ y.start ∨ y.stop ≤ x.start)) :
    redact_text text E1 = redact_text text E2 := by
  have hne : E1.Pairwise (fun x y => x.start ≠ y.start) :=
    hdisj.imp_of_mem (fun ha hb hd => by
      obtain ⟨_, hx, _⟩ := hvalid _ ha
      obtain ⟨_, hy, _⟩ := hvalid _ hb
      omega)
  unfold redact_text
  rw [sortEntities_eq_of_perm hperm hne]

/-- C6 witness: two disjoint entities applied in either order give the same
output on "abcd". -/
theorem c6_witness :
    redact_text "abcd".toList [⟨0, 1, ['A']⟩, ⟨2, 3, ['B']⟩]
      = redact_text "abcd".toList [⟨2, 3, ['B']⟩, ⟨0, 1, ['A']⟩] :=
  c6_perm_invariant "abcd".toList _ _ (by decide) (by decide) (by decide)

/-- C7: exporting any text with filename "f.txt" selects the plain-text
branch, whose bytes are the UTF-8 encoding of the text, and those bytes
decode (UTF-8) back to exactly the text. -/
theorem c7_roundtrip (text : List Char) :
    convert_to_original_format text "f.txt".toList
      = FileOutput.bytes (utf8Encode text) ∧
    utf8Decode (utf8Encode text) = some text :=
  ⟨rfl, utf8_roundtrip text⟩

/-- C8: the table parser returns exactly the cells of the first contiguous
run of table-row lines (a line is a row iff its trimmed form starts and ends
with a pipe and is not a separator row), stopping at the first non-row line
after the run; on the example only the first row is captured. -/
theorem c8_table (markdown_text : List Char) :
    markdown_to_table_data markdown_text = tableRowsSpec markdown_text ∧
    markdown_to_table_data "| a | b |\n| --- |\nrow\n| c | d |".toList
      = [["a".toList, "b".toList]] :=
  ⟨mttdGo_nil_acc _, by decide⟩

/-- C9 counterexample: the entity (-3, 2, "A") on "abcdefgh" is neither
clamped to (0,2) nor skipped: Python reinterprets the negative start from the
end of the string, duplicating part of the text in the output. -/
theorem c9_counterexample :
    ¬ (redact_text "abcdefgh".toList [⟨-3, 2, ['A']⟩]
          = redact_text "abcdefgh".toList [⟨0, 2, ['A']⟩] ∨
        redact_text "abcdefgh".toList [⟨-3, 2, ['A']⟩] = "abcdefgh".toList) := by
  decide

/-- C9 amended: an end offset at or beyond len(text) is clamped by Python
slicing (the entity behaves exactly as if end = len(text)); but entities with
start < 0 are reinterpreted from the end of the text and can corrupt output,
and entities with start = end insert a bare marker instead of being
skipped. -/
theorem c9_amended (text : List Char) (e : Entity)
    (h : (text.length : Int) ≤ e.stop) :
    redact_text text [e]
      = redact_text text [⟨e.start, (text.length : Int), e.label⟩] :=
  redact_single_clamp text e h

/-- C9 witness: the entity (0,5,"A") on the 2-character text "ab" behaves
exactly like (0,2,"A"). -/
theorem c9_witness :
    redact_text "ab".toList [⟨0, 5, ['A']⟩]
      = redact_text "ab".toList [⟨0, 2, ['A']⟩] :=
  c9_amended "ab".toList ⟨0, 5, ['A']⟩ (by decide)

/-- C10: when every entity is in range (0 ≤ start ≤ end ≤ len(text)), the
redacted output is never shorter than the input text: each replacement plus
padding is at least as long as the slice it replaces, and the running offset
never becomes negative. -/
theorem c10_length (text : List Char) (entities : List Entity)
    (_h : ∀ e ∈ entities,
      0 ≤ e.start ∧ e.start ≤ e.stop ∧ e.stop ≤ (text.length : Int)) :
    text.length ≤ (redact_text text entities).length :=
  redact_text_length text entities

/-- C10 witness: the length bound evaluated on "abc" with entity (0,2,"A"). -/
theorem c10_witness :
    "abc".toList.length ≤ (redact_text "abc".toList [⟨0, 2, ['A']⟩]).length :=
  c10_length "abc".toList [⟨0, 2, ['A']⟩] (by decide)
